import Mathlib

/-!
Shallow embedding of the chat-app server (`server/server.js`) for checking the
specification's claims. JavaScript `Map`s are modelled as association lists in
insertion order, `Set`s of strings as duplicate-free lists in insertion order,
the Mongo message collection as a list of documents in insertion order, and the
uploads directory as an association list from filename to mtime. Timestamps are
naturals (milliseconds). Socket connections are identified by naturals; the
mutable `socket.username` field is an association list from connection id to
the last nickname stored on it.
-/

namespace ChatApp

/-- `Map.get`: first binding wins (insertion order, keys unique in practice). -/
def mapGet {K V : Type} [DecidableEq K] (m : List (K × V)) (k : K) : Option V :=
  (m.find? (fun p => p.1 = k)).map Prod.snd

/-- `Map.set`: replace in place if the key is present, else append. -/
def mapSet {K V : Type} [DecidableEq K] (m : List (K × V)) (k : K) (v : V) :
    List (K × V) :=
  if (m.find? (fun p => p.1 = k)).isSome then
    m.map (fun p => if p.1 = k then (k, v) else p)
  else m ++ [(k, v)]

/-- `Map.delete`: drop every binding of the key. -/
def mapDelete {K V : Type} [DecidableEq K] (m : List (K × V)) (k : K) :
    List (K × V) :=
  m.filter (fun p => p.1 ≠ k)

/-- `Set.add` for string sets: append only when absent. -/
def setAdd (s : List String) (x : String) : List String :=
  if x ∈ s then s else s ++ [x]

/-- `Set.delete` for string sets: remove the element. -/
def setDelete (s : List String) (x : String) : List String :=
  s.filter (fun y => y ≠ x)

/-- `FILE_EXPIRY_TIME = 30 * 60 * 1000` (30 minutes in milliseconds). -/
def FILE_EXPIRY_TIME : Nat := 30 * 60 * 1000

/-- `CLEANUP_INTERVAL = 5 * 60 * 1000` (sweep period in milliseconds). -/
def CLEANUP_INTERVAL : Nat := 5 * 60 * 1000

/-- Redaction text written by `deleteFile`'s `Message.updateMany`. -/
def expiryNotice : String := "File expired (automatically removed after 30 minutes)"

/-- Redaction text written by the `SIGINT` handler's `Message.updateMany`. -/
def shutdownNotice : String := "File removed (server shutdown)"

/-- A document of the Mongo `Message` collection (`MessageSchema`). -/
structure Msg where
  room : String
  username : String
  text : String
  type : String
  fileName : Option String
  fileUrl : Option String
  createdAt : Nat
deriving DecidableEq

/-- Payload of a broadcast `message`/`roomUsers`-style emit (no `room` field). -/
structure Payload where
  username : String
  text : String
  type : String
  fileName : Option String
  fileUrl : Option String
  createdAt : Nat
deriving DecidableEq

/-- A document of the Mongo `User` collection (`UserSchema`). -/
structure UserRec where
  room : String
  username : String
  joinedAt : Nat
deriving DecidableEq

/-- An entry of the `uploadedFiles` tracking map (`{ timer, room, originalName }`,
the shape destructured by the `SIGINT` handler). -/
structure FileEntry where
  timer : Nat
  room : String
  originalName : String
deriving DecidableEq

/-- `req.file` as produced by multer's `diskStorage`. -/
structure FileInfo where
  filename : String
  originalname : String
  mimetype : String
  size : Nat
deriving DecidableEq

/-- The JSON body sent back by the `/upload` endpoint. The source responds with
`{ success, error? }` or `{ success, fileUrl }`; there is no MIME-type field. -/
structure UploadResponse where
  status : Nat
  success : Bool
  error : Option String
  fileUrl : Option String
deriving DecidableEq

/-- Process-wide mutable state of `server.js`. -/
structure ServerState where
  rooms : List (String × List String)
  roomPersistence : List (String × Bool)
  socketNames : List (Nat × String)
  db : List Msg
  users : List UserRec
  uploadedFiles : List (String × FileEntry)
  timers : List Nat
  disk : List (String × Nat)
  dirExists : Bool
  dbOpen : Bool
deriving DecidableEq

/-- Events emitted over the socket layer. `roomData` goes to the joining socket
only; the rest are room broadcasts. -/
inductive Event where
  | roomData (target : Nat) (users : List String) (pastUsers : List String)
      (messages : List Msg) (persist : Option Bool)
  | roomUsers (room : String) (users : List String)
  | updatePastUsers (room : String) (pastUsers : List String)
  | message (room : String) (p : Payload)
  | errorEvt (target : Nat) (text : String)
deriving DecidableEq

/-- Ordering on messages used by `.sort({ createdAt: 1 })`. -/
def msgLE (a b : Msg) : Prop := a.createdAt ≤ b.createdAt

instance : DecidableRel msgLE := fun a b => Nat.decLe a.createdAt b.createdAt

instance : IsTotal Msg msgLE := ⟨fun a b => Nat.le_total a.createdAt b.createdAt⟩

instance : IsTrans Msg msgLE := ⟨fun _ _ _ h h' => Nat.le_trans h h'⟩

/-- Ordering on user rows used by `.sort({ joinedAt: -1 })` (most recent first). -/
def userGE (a b : UserRec) : Prop := b.joinedAt ≤ a.joinedAt

instance : DecidableRel userGE := fun a b => Nat.decLe b.joinedAt a.joinedAt

/-- `Message.find({ room }).sort({ createdAt: 1 })`. -/
def listByRoom (room : String) (db : List Msg) : List Msg :=
  List.insertionSort msgLE (db.filter (fun m => m.room == room))

/-- Active-member snapshot of a room (`Array.from(rooms.get(room))`, `[]` when
the room has no entry). -/
def activeUsers (room : String) (s : ServerState) : List String :=
  (mapGet s.rooms room).getD []

/-- The `socket.on('joinRoom')` handler. Returns the new state and the emitted
events, in emission order. -/
def joinRoom (c : Nat) (username room : String) (persist isCreator : Bool)
    (now : Nat) (s : ServerState) : ServerState × List Event :=
  let socketNames := mapSet s.socketNames c username
  let roomPersistence :=
    if isCreator then mapSet s.roomPersistence room persist else s.roomPersistence
  let rooms0 :=
    if (mapGet s.rooms room).isSome then s.rooms else mapSet s.rooms room []
  let members := (mapGet rooms0 room).getD []
  let rooms := mapSet rooms0 room (setAdd members username)
  let users := s.users ++ [⟨room, username, now⟩]
  let pastUsernames :=
    (List.insertionSort userGE (users.filter (fun u => u.room == room))).map
      (fun u => u.username)
  let history :=
    if (mapGet roomPersistence room).getD false then listByRoom room s.db else []
  let newMembers := (mapGet rooms room).getD []
  ({ s with
      rooms := rooms
      roomPersistence := roomPersistence
      socketNames := socketNames
      users := users },
   [Event.roomData c newMembers pastUsernames history (mapGet roomPersistence room),
    Event.roomUsers room newMembers,
    Event.updatePastUsers room pastUsernames,
    Event.message room ⟨"System", username ++ " has joined the room", "system",
      none, none, now⟩])

/-- The `socket.on('message')` handler: save iff the room's persistence flag is
truthy, broadcast unconditionally. The source performs no length check. -/
def onMessage (room username text type : String) (now : Nat) (s : ServerState) :
    ServerState × List Event :=
  let db :=
    if (mapGet s.roomPersistence room).getD false then
      s.db ++ [⟨room, username, text, type, none, none, now⟩]
    else s.db
  ({ s with db := db },
   [Event.message room ⟨username, text, type, none, none, now⟩])

/-- The `socket.on('disconnect')` handler: for every room whose member set
contains `socket.username`, remove that nickname and broadcast an update plus a
leave system message. A socket that never joined has no stored username. -/
def disconnect (c : Nat) (now : Nat) (s : ServerState) : ServerState × List Event :=
  match mapGet s.socketNames c with
  | none => (s, [])
  | some n =>
    ({ s with
        rooms := s.rooms.map
          (fun p => if n ∈ p.2 then (p.1, setDelete p.2 n) else p) },
     (s.rooms.filter (fun p => decide (n ∈ p.2))).flatMap
       (fun p =>
         [Event.roomUsers p.1 (setDelete p.2 n),
          Event.message p.1 ⟨"System", n ++ " has left the room", "system",
            none, none, now⟩]))

/-- `redactMsg u t` is the per-document effect of
`Message.updateMany({ fileUrl: u }, { $set: { text: t, fileUrl: null } })`. -/
def redactMsg (fileUrl text : String) (m : Msg) : Msg :=
  if m.fileUrl = some fileUrl then { m with text := text, fileUrl := none } else m

/-- `deleteFile(filename, fileUrl)`: unlink the bytes (an absent file is not an
error), redact every message whose `fileUrl` matches, then drop the tracking
entry. -/
def deleteFile (filename fileUrl : String) (s : ServerState) : ServerState :=
  { s with
      disk := mapDelete s.disk filename
      db := s.db.map (redactMsg fileUrl expiryNotice)
      uploadedFiles := mapDelete s.uploadedFiles filename }

/-- Body of the sweep loop in `cleanupExpiredFiles`: stat the file and delete it
when its age reaches `FILE_EXPIRY_TIME`. -/
def sweepFile (now : Nat) (st : ServerState) (file : String) : ServerState :=
  match mapGet st.disk file with
  | none => st
  | some mtime =>
    if FILE_EXPIRY_TIME ≤ now - mtime then
      deleteFile file ("/uploads/" ++ file) st
    else st

/-- `cleanupExpiredFiles()` at time `now`: create the uploads directory if it is
missing and return, else delete every listed file whose age reaches
`FILE_EXPIRY_TIME`. -/
def cleanupExpiredFiles (now : Nat) (s : ServerState) : ServerState :=
  if s.dirExists then (s.disk.map Prod.fst).foldl (sweepFile now) s
  else { s with dirExists := true }

/-- The `app.post('/upload')` handler, including multer's disk write, which has
happened before the handler body runs. The source configures multer with no
size limit and no file filter, stores a file message iff the room is
persistent, broadcasts unconditionally, and never touches `uploadedFiles` or
any timer. -/
def uploadHandler (file : Option FileInfo) (room username : String) (now : Nat)
    (s : ServerState) : ServerState × List Event × UploadResponse :=
  match file with
  | none => (s, [], ⟨400, false, some "No file uploaded", none⟩)
  | some f =>
    let s := { s with disk := mapSet s.disk f.filename now, dirExists := true }
    let url := "/uploads/" ++ f.filename
    let db :=
      if (mapGet s.roomPersistence room).getD false then
        s.db ++ [⟨room, username, f.originalname, "file", some f.originalname,
          some url, now⟩]
      else s.db
    ({ s with db := db },
     [Event.message room ⟨username, f.originalname, "file", some f.originalname,
        some url, now⟩],
     ⟨200, true, none, some url⟩)

/-- Per-document effect of the shutdown redaction
`Message.updateMany({ type: 'file', fileUrl: { $ne: null } }, ...)`. -/
def shutdownRedact (m : Msg) : Msg :=
  if m.type = "file" ∧ m.fileUrl ≠ none then
    { m with text := shutdownNotice, fileUrl := none }
  else m

/-- The `process.on('SIGINT')` handler: clear every tracked timer, redact all
file messages with a live URL, unlink everything in the uploads directory,
close the Mongo connection, and exit with code 0. -/
def sigintCleanup (s : ServerState) : ServerState × Nat :=
  let timers := s.timers.filter
    (fun t => ¬ s.uploadedFiles.any (fun p => p.2.timer = t))
  let s := { s with timers := timers }
  let s :=
    if s.dirExists then
      { s with db := s.db.map shutdownRedact, disk := [] }
    else s
  ({ s with dbOpen := false }, 0)

/-- Externally triggered actions, each carrying the wall-clock time at which it
runs. -/
inductive Action where
  | join (c : Nat) (username room : String) (persist isCreator : Bool) (now : Nat)
  | msg (room username text type : String) (now : Nat)
  | upload (file : Option FileInfo) (room username : String) (now : Nat)
  | disc (c : Nat) (now : Nat)
  | sweep (now : Nat)
deriving DecidableEq

/-- One step of the server: dispatch an action to its handler. -/
def step (s : ServerState) (a : Action) : ServerState :=
  match a with
  | .join c u r p ic now => (joinRoom c u r p ic now s).1
  | .msg r u t ty now => (onMessage r u t ty now s).1
  | .upload f r u now => (uploadHandler f r u now s).1
  | .disc c now => (disconnect c now s).1
  | .sweep now => cleanupExpiredFiles now s

/-- State after a trace of actions starting from `s`. -/
def run (tr : List Action) (s : ServerState) : ServerState := tr.foldl step s

/-- Server state at startup (the startup sweep has created the uploads
directory; every table is empty). -/
def initState : ServerState := ⟨[], [], [], [], [], [], [], [], true, true⟩

/-- Recognizer for `error` emits. -/
def isErrorEvt : Event → Bool
  | .errorEvt _ _ => true
  | _ => false

/-- Nickname stored on socket `c` after the first `j` actions of `tr`. -/
def nickAt (tr : List Action) (j : Nat) (c : Nat) : Option String :=
  mapGet (run (tr.take j) initState).socketNames c

/-- Step `j` of `tr` is a disconnect whose socket carries nickname `n`, so it
removes `n` from every room. -/
def removesNick (tr : List Action) (j : Nat) (n : String) : Prop :=
  ∃ c now, tr[j]? = some (Action.disc c now) ∧ nickAt tr j c = some n

/-- Spec-side membership predicate (amended claim C5): some join of nickname
`n` to room `r` occurs in the trace and no later step removes `n`. -/
def specActiveMember (tr : List Action) (n r : String) : Prop :=
  ∃ i, i < tr.length ∧
    (∃ c p ic now, tr[i]? = some (Action.join c n r p ic now)) ∧
    ∀ j, i < j → j < tr.length → ¬ removesNick tr j n

/-- Action that turns room `r`'s persistence flag on (a creator join with
`persist = true`). -/
def makesPersistent (a : Action) (r : String) : Prop :=
  ∃ c u now, a = Action.join c u r true true now

/-- Sample file message used to instantiate theorems with hypotheses. -/
def cexFileMsg : Msg :=
  ⟨"room1", "alice", "cat.png", "file", some "cat.png", some "/uploads/f.png", 7⟩

/-- Sample text message used to instantiate theorems with hypotheses. -/
def cexTextMsg : Msg := ⟨"room1", "bob", "hello", "text", none, none, 8⟩

/-- Sample state: one tracked file with a pending timer, the file on disk, and
two stored messages. -/
def cexState : ServerState :=
  { initState with
      db := [cexFileMsg, cexTextMsg]
      uploadedFiles := [("f.png", ⟨77, "room1", "cat.png"⟩)]
      timers := [77]
      disk := [("f.png", 100)] }

/-- Sample trace: two connections sharing the nickname `bob` join different
rooms, then the first disconnects. -/
def cexTrace : List Action :=
  [Action.join 1 "bob" "a" false false 1, Action.join 2 "bob" "b" false false 2]

/-- Sample state whose room `room1` has persistence enabled. -/
def cexPersistState : ServerState :=
  { initState with roomPersistence := [("room1", true)] }

/-! ### Lemmas about the map and set primitives -/

theorem mapGet_nil {K V : Type} [DecidableEq K] (k : K) :
    mapGet ([] : List (K × V)) k = none := rfl

theorem mapGet_cons {K V : Type} [DecidableEq K] (p : K × V) (m : List (K × V))
    (k : K) : mapGet (p :: m) k = if p.1 = k then some p.2 else mapGet m k := by
  by_cases h : p.1 = k <;> simp [mapGet, List.find?_cons, h]

theorem mapSet_eq {K V : Type} [DecidableEq K] (m : List (K × V)) (k : K)
    (v : V) :
    mapSet m k v =
      if (mapGet m k).isSome then
        m.map (fun p => if p.1 = k then (k, v) else p)
      else m ++ [(k, v)] := by
  have : (mapGet m k).isSome = (m.find? (fun p => p.1 = k)).isSome := by
    simp [mapGet]
  rw [mapSet, this]

theorem mapGet_append {K V : Type} [DecidableEq K] (m₁ m₂ : List (K × V))
    (k : K) :
    mapGet (m₁ ++ m₂) k =
      if (mapGet m₁ k).isSome then mapGet m₁ k else mapGet m₂ k := by
  induction m₁ with
  | nil => simp [mapGet_nil]
  | cons p m ih =>
    by_cases h : p.1 = k <;> simp [mapGet_cons, h, ih]

theorem mapGet_replaceKey_self {K V : Type} [DecidableEq K] (m : List (K × V))
    (k : K) (v : V) :
    mapGet (m.map (fun p => if p.1 = k then (k, v) else p)) k =
      if (mapGet m k).isSome then some v else none := by
  induction m with
  | nil => simp [mapGet_nil]
  | cons p m ih =>
    by_cases h : p.1 = k <;> simp [mapGet_cons, h, ih]

theorem mapGet_replaceKey_ne {K V : Type} [DecidableEq K] (m : List (K × V))
    (k k' : K) (v : V) (hk : k' ≠ k) :
    mapGet (m.map (fun p => if p.1 = k then (k, v) else p)) k' = mapGet m k' := by
  induction m with
  | nil => simp
  | cons p m ih =>
    by_cases h : p.1 = k
    · have h' : p.1 ≠ k' := fun hh => hk (hh ▸ h ▸ rfl)
      simp [mapGet_cons, h, h', hk, Ne.symm hk, ih]
    · by_cases h' : p.1 = k' <;> simp [mapGet_cons, h, h', hk, Ne.symm hk, ih]

theorem mapGet_mapSet_self {K V : Type} [DecidableEq K] (m : List (K × V))
    (k : K) (v : V) : mapGet (mapSet m k v) k = some v := by
  rw [mapSet_eq]
  by_cases h : (mapGet m k).isSome
  · simp [h, mapGet_replaceKey_self]
  · simp [h, mapGet_append, mapGet_cons]

theorem mapGet_mapSet_ne {K V : Type} [DecidableEq K] (m : List (K × V))
    (k k' : K) (v : V) (hk : k' ≠ k) : mapGet (mapSet m k v) k' = mapGet m k' := by
  rw [mapSet_eq]
  by_cases h : (mapGet m k).isSome
  · simp [h, mapGet_replaceKey_ne m k k' v hk]
  · rw [if_neg h, mapGet_append]
    cases hg : mapGet m k' with
    | some w => simp [hg]
    | none => simp [hg, mapGet_cons, mapGet_nil, Ne.symm hk]

theorem mapGet_none_iff {K V : Type} [DecidableEq K] (m : List (K × V)) (k : K) :
    mapGet m k = none ↔ ∀ p ∈ m, p.1 ≠ k := by
  simp [mapGet, List.find?_eq_none]

theorem mapGet_mapDelete_self {K V : Type} [DecidableEq K] (m : List (K × V))
    (k : K) : mapGet (mapDelete m k) k = none := by
  rw [mapGet_none_iff]
  intro p hp
  simp only [mapDelete, List.mem_filter, decide_eq_true_eq] at hp
  simpa using hp.2

theorem mapDelete_cons {K V : Type} [DecidableEq K] (p : K × V)
    (m : List (K × V)) (k : K) :
    mapDelete (p :: m) k =
      if p.1 = k then mapDelete m k else p :: mapDelete m k := by
  by_cases h : p.1 = k <;> simp [mapDelete, List.filter_cons, h]

theorem mapGet_mapDelete_ne {K V : Type} [DecidableEq K] (m : List (K × V))
    (k k' : K) (hk : k' ≠ k) : mapGet (mapDelete m k) k' = mapGet m k' := by
  induction m with
  | nil => rfl
  | cons p m ih =>
    rw [mapDelete_cons]
    by_cases h : p.1 = k
    · have h' : p.1 ≠ k' := fun hh => hk (hh ▸ h ▸ rfl)
      rw [if_pos h, ih, mapGet_cons, if_neg h']
    · rw [if_neg h, mapGet_cons, mapGet_cons, ih]

theorem mem_key_of_mapGet_some {K V : Type} [DecidableEq K] (m : List (K × V))
    (k : K) (v : V) (h : mapGet m k = some v) : k ∈ m.map Prod.fst := by
  induction m with
  | nil => simp [mapGet_nil] at h
  | cons p m ih =>
    rw [mapGet_cons] at h
    by_cases hp : p.1 = k
    · simp [hp]
    · rw [if_neg hp] at h
      simp [ih h]

theorem mem_setAdd (s : List String) (x y : String) :
    x ∈ setAdd s y ↔ x ∈ s ∨ x = y := by
  unfold setAdd
  split
  · rename_i h
    constructor
    · exact fun hx => Or.inl hx
    · rintro (hx | rfl)
      · exact hx
      · exact h
  · simp

theorem setAdd_nodup (s : List String) (y : String) (h : s.Nodup) :
    (setAdd s y).Nodup := by
  unfold setAdd
  split
  · exact h
  · rename_i hy
    simpa [List.nodup_append] using ⟨h, hy⟩

theorem mem_setDelete (s : List String) (x y : String) :
    x ∈ setDelete s y ↔ x ∈ s ∧ x ≠ y := by
  simp [setDelete, List.mem_filter]

theorem setDelete_of_not_mem (s : List String) (y : String) (h : y ∉ s) :
    setDelete s y = s := by
  rw [setDelete, List.filter_eq_self]
  intro a ha
  simp only [decide_eq_true_eq]
  exact fun hay => h (hay ▸ ha)

theorem setDelete_nodup (s : List String) (y : String) (h : s.Nodup) :
    (setDelete s y).Nodup :=
  List.Nodup.filter _ h

/-! ### Lemmas about the server operations -/

theorem run_nil (s : ServerState) : run [] s = s := rfl

theorem run_concat (tr : List Action) (a : Action) (s : ServerState) :
    run (tr ++ [a]) s = step (run tr s) a := by
  simp [run, List.foldl_append]

theorem foldl_preserve {α β : Type} (f : β → α → β) (P : β → Prop)
    (h : ∀ b a, P b → P (f b a)) : ∀ (l : List α) (b : β), P b → P (l.foldl f b)
  | [], _, hb => hb
  | a :: l, b, hb => foldl_preserve f P h l (f b a) (h b a hb)

theorem deleteFile_rooms (f u : String) (s : ServerState) :
    (deleteFile f u s).rooms = s.rooms := rfl

theorem deleteFile_roomPersistence (f u : String) (s : ServerState) :
    (deleteFile f u s).roomPersistence = s.roomPersistence := rfl

theorem deleteFile_socketNames (f u : String) (s : ServerState) :
    (deleteFile f u s).socketNames = s.socketNames := rfl

theorem sweepFile_rooms (now : Nat) (st : ServerState) (f : String) :
    (sweepFile now st f).rooms = st.rooms := by
  unfold sweepFile
  split
  · rfl
  · split <;> rfl

theorem sweepFile_roomPersistence (now : Nat) (st : ServerState) (f : String) :
    (sweepFile now st f).roomPersistence = st.roomPersistence := by
  unfold sweepFile
  split
  · rfl
  · split <;> rfl

theorem sweepFile_socketNames (now : Nat) (st : ServerState) (f : String) :
    (sweepFile now st f).socketNames = st.socketNames := by
  unfold sweepFile
  split
  · rfl
  · split <;> rfl

theorem cleanup_rooms (now : Nat) (s : ServerState) :
    (cleanupExpiredFiles now s).rooms = s.rooms := by
  unfold cleanupExpiredFiles
  split
  · exact foldl_preserve (sweepFile now) (fun st => st.rooms = s.rooms)
      (fun st f h => (sweepFile_rooms now st f).trans h) _ s rfl
  · rfl

theorem cleanup_roomPersistence (now : Nat) (s : ServerState) :
    (cleanupExpiredFiles now s).roomPersistence = s.roomPersistence := by
  unfold cleanupExpiredFiles
  split
  · exact foldl_preserve (sweepFile now) (fun st => st.roomPersistence = s.roomPersistence)
      (fun st f h => (sweepFile_roomPersistence now st f).trans h) _ s rfl
  · rfl

theorem cleanup_socketNames (now : Nat) (s : ServerState) :
    (cleanupExpiredFiles now s).socketNames = s.socketNames := by
  unfold cleanupExpiredFiles
  split
  · exact foldl_preserve (sweepFile now) (fun st => st.socketNames = s.socketNames)
      (fun st f h => (sweepFile_socketNames now st f).trans h) _ s rfl
  · rfl

theorem joinRoom_activeUsers (c : Nat) (u room : String) (p ic : Bool) (now : Nat)
    (s : ServerState) (q : String) :
    activeUsers q (joinRoom c u room p ic now s).1 =
      if room = q then setAdd (activeUsers q s) u else activeUsers q s := by
  unfold joinRoom activeUsers
  simp only
  by_cases hq : room = q
  · subst hq
    rw [if_pos rfl]
    by_cases h : (mapGet s.rooms room).isSome
    · simp only [if_pos h, mapGet_mapSet_self, Option.getD_some]
    · simp only [if_neg h, mapGet_mapSet_self, Option.getD_some]
      rcases hg : mapGet s.rooms room with _ | w
      · simp
      · exact absurd (by simp [hg]) h
  · rw [if_neg hq]
    rw [mapGet_mapSet_ne _ _ _ _ (Ne.symm hq)]
    by_cases h : (mapGet s.rooms room).isSome
    · simp only [if_pos h]
    · simp only [if_neg h, mapGet_mapSet_ne _ _ _ _ (Ne.symm hq)]

theorem joinRoom_socketNames (c : Nat) (u room : String) (p ic : Bool) (now : Nat)
    (s : ServerState) :
    (joinRoom c u room p ic now s).1.socketNames = mapSet s.socketNames c u := rfl

theorem disconnect_rooms_none (c : Nat) (now : Nat) (s : ServerState)
    (h : mapGet s.socketNames c = none) : (disconnect c now s).1 = s := by
  unfold disconnect
  rw [h]

theorem mapGet_removeNick (l : List (String × List String)) (n q : String) :
    mapGet (l.map fun p => if n ∈ p.2 then (p.1, setDelete p.2 n) else p) q =
      (mapGet l q).map (fun users => setDelete users n) := by
  induction l with
  | nil => rfl
  | cons p l ih =>
    by_cases hn : n ∈ p.2
    · simp [mapGet_cons, hn, ih]
      by_cases hq : p.1 = q <;> simp [hq]
    · simp [mapGet_cons, hn, ih]
      by_cases hq : p.1 = q <;> simp [hq, setDelete_of_not_mem p.2 n hn]

theorem disconnect_activeUsers (c : Nat) (now : Nat) (s : ServerState)
    (n : String) (h : mapGet s.socketNames c = some n) (q : String) :
    activeUsers q (disconnect c now s).1 = setDelete (activeUsers q s) n := by
  unfold disconnect
  rw [h]
  unfold activeUsers
  simp only [mapGet_removeNick]
  cases mapGet s.rooms q with
  | none => rfl
  | some users => rfl

theorem disconnect_socketNames (c : Nat) (now : Nat) (s : ServerState) :
    (disconnect c now s).1.socketNames = s.socketNames := by
  unfold disconnect
  cases mapGet s.socketNames c with
  | none => rfl
  | some n => rfl

theorem step_rooms_msg (s : ServerState) (r u t ty : String) (now : Nat) :
    (step s (Action.msg r u t ty now)).rooms = s.rooms := by
  unfold step onMessage
  rfl

theorem step_rooms_upload (s : ServerState) (f : Option FileInfo) (r u : String)
    (now : Nat) : (step s (Action.upload f r u now)).rooms = s.rooms := by
  cases f with
  | none => rfl
  | some fi =>
    show (uploadHandler (some fi) r u now s).1.rooms = s.rooms
    unfold uploadHandler
    split
    all_goals rfl

/-! ### Trace characterization of active membership (claim C5) -/

theorem removesNick_append_lt (tr : List Action) (a : Action) (j : Nat)
    (n : String) (h : j < tr.length) :
    removesNick (tr ++ [a]) j n ↔ removesNick tr j n := by
  unfold removesNick nickAt
  rw [List.getElem?_append_left h, List.take_append_of_le_length (le_of_lt h)]

theorem removesNick_append_len (tr : List Action) (a : Action) (n : String) :
    removesNick (tr ++ [a]) tr.length n ↔
      ∃ c now, a = Action.disc c now ∧
        mapGet (run tr initState).socketNames c = some n := by
  unfold removesNick nickAt
  rw [List.getElem?_concat_length, List.take_left]
  constructor
  · rintro ⟨c, now, h1, h2⟩
    exact ⟨c, now, Option.some_inj.mp h1, h2⟩
  · rintro ⟨c, now, h1, h2⟩
    exact ⟨c, now, by rw [h1], h2⟩

theorem removesNick_of_ge (tr : List Action) (j : Nat) (n : String)
    (h : tr.length ≤ j) : ¬ removesNick tr j n := by
  rintro ⟨c, now, h1, _⟩
  rw [List.getElem?_eq_none h] at h1
  exact Option.noConfusion h1

theorem specActiveMember_append (tr : List Action) (a : Action) (n r : String) :
    specActiveMember (tr ++ [a]) n r ↔
      ((∃ c p ic now, a = Action.join c n r p ic now) ∨
        (specActiveMember tr n r ∧
          ¬ ∃ c now, a = Action.disc c now ∧
            mapGet (run tr initState).socketNames c = some n)) := by
  unfold specActiveMember
  constructor
  · rintro ⟨i, hi, ⟨c, p, ic, now, hj⟩, hno⟩
    rw [List.length_append, List.length_cons, List.length_nil] at hi
    rcases Nat.lt_succ_iff_lt_or_eq.mp hi with hlt | heq
    · right
      refine ⟨⟨i, hlt, ⟨c, p, ic, now, ?_⟩, fun j hj1 hj2 hrem => ?_⟩, ?_⟩
      · rw [List.getElem?_append_left hlt] at hj
        exact hj
      · exact hno j hj1 (by simpa using Nat.lt_succ_of_lt hj2)
          ((removesNick_append_lt tr a j n hj2).mpr hrem)
      · intro hend
        exact hno tr.length hlt (by simp) ((removesNick_append_len tr a n).mpr hend)
    · subst heq
      rw [List.getElem?_concat_length] at hj
      exact Or.inl ⟨c, p, ic, now, Option.some_inj.mp hj⟩
  · rintro (⟨c, p, ic, now, ha⟩ | ⟨⟨i, hi, ⟨c, p, ic, now, hj⟩, hno⟩, hend⟩)
    · refine ⟨tr.length, by simp, ⟨c, p, ic, now, ?_⟩, fun j hj1 hj2 => ?_⟩
      · rw [ha, List.getElem?_concat_length]
      · exact absurd (by simpa using hj2) (Nat.not_lt.mpr hj1)
    · refine ⟨i, by simp [Nat.lt_succ_of_lt hi], ⟨c, p, ic, now, ?_⟩,
        fun j hj1 hj2 hrem => ?_⟩
      · rw [List.getElem?_append_left hi]
        exact hj
      · rw [List.length_append, List.length_cons, List.length_nil] at hj2
        rcases Nat.lt_succ_iff_lt_or_eq.mp hj2 with hlt | heq
        · exact hno j hj1 hlt ((removesNick_append_lt tr a j n hlt).mp hrem)
        · subst heq
          exact hend ((removesNick_append_len tr a n).mp hrem)

theorem activeUsers_eq_of_rooms (s s' : ServerState) (h : s'.rooms = s.rooms)
    (q : String) : activeUsers q s' = activeUsers q s := by
  unfold activeUsers
  rw [h]

theorem mem_activeUsers_iff (tr : List Action) (n r : String) :
    n ∈ activeUsers r (run tr initState) ↔ specActiveMember tr n r := by
  induction tr using List.reverseRecOn with
  | nil =>
    simp [run_nil, activeUsers, initState, mapGet_nil, specActiveMember]
  | append_singleton tr a ih =>
    rw [run_concat, specActiveMember_append]
    cases a with
    | join c u room p ic now =>
      have hstep : step (run tr initState) (Action.join c u room p ic now) =
          (joinRoom c u room p ic now (run tr initState)).1 := rfl
      rw [hstep, joinRoom_activeUsers]
      by_cases hq : room = r
      · subst hq
        rw [if_pos rfl, mem_setAdd, ih]
        constructor
        · rintro (hs | rfl)
          · exact Or.inr ⟨hs, by rintro ⟨c', now', h, _⟩; exact Action.noConfusion h⟩
          · exact Or.inl ⟨c, p, ic, now, rfl⟩
        · rintro (⟨c', p', ic', now', h⟩ | ⟨hs, _⟩)
          · injection h with h1 h2 h3 h4 h5 h6
            exact Or.inr h2.symm
          · exact Or.inl hs
      · rw [if_neg hq, ih]
        constructor
        · intro hs
          exact Or.inr ⟨hs, by rintro ⟨c', now', h, _⟩; exact Action.noConfusion h⟩
        · rintro (⟨c', p', ic', now', h⟩ | ⟨hs, _⟩)
          · injection h with h1 h2 h3 h4 h5 h6
            exact absurd h3 hq
          · exact hs
    | msg room u t ty now =>
      rw [activeUsers_eq_of_rooms _ _ (step_rooms_msg (run tr initState) room u t ty now) r, ih]
      constructor
      · intro hs
        exact Or.inr ⟨hs, by rintro ⟨c', now', h, _⟩; exact Action.noConfusion h⟩
      · rintro (⟨c', p', ic', now', h⟩ | ⟨hs, _⟩)
        · exact Action.noConfusion h
        · exact hs
    | upload f room u now =>
      rw [activeUsers_eq_of_rooms _ _ (step_rooms_upload (run tr initState) f room u now) r, ih]
      constructor
      · intro hs
        exact Or.inr ⟨hs, by rintro ⟨c', now', h, _⟩; exact Action.noConfusion h⟩
      · rintro (⟨c', p', ic', now', h⟩ | ⟨hs, _⟩)
        · exact Action.noConfusion h
        · exact hs
    | sweep now =>
      have hstep : step (run tr initState) (Action.sweep now) =
          cleanupExpiredFiles now (run tr initState) := rfl
      rw [hstep, activeUsers_eq_of_rooms _ _ (cleanup_rooms now _) r, ih]
      constructor
      · intro hs
        exact Or.inr ⟨hs, by rintro ⟨c', now', h, _⟩; exact Action.noConfusion h⟩
      · rintro (⟨c', p', ic', now', h⟩ | ⟨hs, _⟩)
        · exact Action.noConfusion h
        · exact hs
    | disc c now =>
      have hstep : step (run tr initState) (Action.disc c now) =
          (disconnect c now (run tr initState)).1 := rfl
      rw [hstep]
      cases hn : mapGet (run tr initState).socketNames c with
      | none =>
        rw [disconnect_rooms_none c now _ hn, ih]
        constructor
        · intro hs
          refine Or.inr ⟨hs, ?_⟩
          rintro ⟨c', now', h, hsome⟩
          obtain ⟨rfl, rfl⟩ : c = c' ∧ now = now' := by
            cases h
            exact ⟨rfl, rfl⟩
          rw [hn] at hsome
          exact Option.noConfusion hsome
        · rintro (⟨c', p', ic', now', h⟩ | ⟨hs, _⟩)
          · exact Action.noConfusion h
          · exact hs
      | some m =>
        rw [disconnect_activeUsers c now _ m hn r, mem_setDelete, ih]
        by_cases hm : m = n
        · subst hm
          constructor
          · rintro ⟨_, hne⟩
            exact absurd rfl hne
          · rintro (⟨c', p', ic', now', h⟩ | ⟨_, hno⟩)
            · exact Action.noConfusion h
            · exact absurd ⟨c, now, rfl, hn⟩ hno
        · constructor
          · rintro ⟨hs, _⟩
            refine Or.inr ⟨hs, ?_⟩
            rintro ⟨c', now', h, hsome⟩
            obtain ⟨rfl, rfl⟩ : c = c' ∧ now = now' := by
              cases h
              exact ⟨rfl, rfl⟩
            rw [hn] at hsome
            exact hm (Option.some_inj.mp hsome)
          · rintro (⟨c', p', ic', now', h⟩ | ⟨hs, _⟩)
            · exact Action.noConfusion h
            · exact ⟨hs, fun hnm => hm hnm.symm⟩

theorem step_activeUsers_nodup (s : ServerState) (a : Action)
    (h : ∀ q, (activeUsers q s).Nodup) : ∀ q, (activeUsers q (step s a)).Nodup := by
  cases a with
  | join c u room p ic now =>
    intro q
    have hstep : step s (Action.join c u room p ic now) =
        (joinRoom c u room p ic now s).1 := rfl
    rw [hstep, joinRoom_activeUsers]
    split
    · exact setAdd_nodup _ _ (h q)
    · exact h q
  | msg room u t ty now =>
    intro q
    rw [activeUsers_eq_of_rooms _ _ (step_rooms_msg s room u t ty now) q]
    exact h q
  | upload f room u now =>
    intro q
    rw [activeUsers_eq_of_rooms _ _ (step_rooms_upload s f room u now) q]
    exact h q
  | disc c now =>
    intro q
    cases hn : mapGet s.socketNames c with
    | none =>
      have hstep : step s (Action.disc c now) = (disconnect c now s).1 := rfl
      rw [hstep, disconnect_rooms_none c now s hn]
      exact h q
    | some m =>
      have hstep : step s (Action.disc c now) = (disconnect c now s).1 := rfl
      rw [hstep, disconnect_activeUsers c now s m hn q]
      exact setDelete_nodup _ _ (h q)
  | sweep now =>
    intro q
    have hstep : step s (Action.sweep now) = cleanupExpiredFiles now s := rfl
    rw [hstep, activeUsers_eq_of_rooms _ _ (cleanup_rooms now s) q]
    exact h q

theorem activeUsers_run_nodup (tr : List Action) (r : String) :
    (activeUsers r (run tr initState)).Nodup := by
  suffices h : ∀ s, (∀ q, (activeUsers q s).Nodup) →
      ∀ q, (activeUsers q (run tr s)).Nodup by
    refine h initState (fun q => ?_) r
    simp [activeUsers, initState, mapGet_nil]
  induction tr with
  | nil => exact fun s hs => hs
  | cons a tr ih =>
    intro s hs
    exact ih (step s a) (step_activeUsers_nodup s a hs)

/-! ### Claim theorems -/

/-- C1: the claim says every accepted upload stores tracking metadata and
schedules an expiry action that fires after the TTL. Evaluating the embedded
`/upload` handler at an accepted upload shows the response succeeds while the
`uploadedFiles` tracking map stays empty and no timer is pending: the handler
never registers the file and never schedules an expiry action. -/
theorem C1_accepted_upload_not_tracked_no_timer :
    (uploadHandler (some ⟨"1730000000-42.png", "cat.png", "image/png", 1024⟩)
        "room1" "alice" 100 initState).2.2.success = true ∧
    (uploadHandler (some ⟨"1730000000-42.png", "cat.png", "image/png", 1024⟩)
        "room1" "alice" 100 initState).1.uploadedFiles = [] ∧
    (uploadHandler (some ⟨"1730000000-42.png", "cat.png", "image/png", 1024⟩)
        "room1" "alice" 100 initState).1.timers = [] :=
  ⟨rfl, rfl, rfl⟩

/-- C7: the claim says the upload endpoint rejects files over 5 MiB and files
of disallowed type with a structured error, leaving no artifacts. Evaluating
the embedded handler at a 6 MiB `application/zip` upload shows it answers
`200 { success: true, fileUrl }` (with no MIME-type field in the response
shape) and leaves the file on disk: the endpoint enforces no size or type
constraint. -/
theorem C7_upload_enforces_no_size_or_type_limit :
    (uploadHandler (some ⟨"99-1.zip", "big.zip", "application/zip",
        6 * 1024 * 1024⟩) "room1" "bob" 5 initState).2.2 =
      ⟨200, true, none, some "/uploads/99-1.zip"⟩ ∧
    mapGet (uploadHandler (some ⟨"99-1.zip", "big.zip", "application/zip",
        6 * 1024 * 1024⟩) "room1" "bob" 5 initState).1.disk "99-1.zip" = some 5 ∧
    5 * 1024 * 1024 < 6 * 1024 * 1024 := by
  refine ⟨rfl, ?_, by norm_num⟩
  rfl

/-- C8: the claim says a text longer than 1000 units is rejected with
`MessageTooLong`, neither persisted nor broadcast. Evaluating the embedded
`message` handler on a 1001-character text in a persistent room shows the
message is stored and broadcast unchanged: the server performs no length
check (only the client does). -/
theorem C8_long_message_persisted_and_broadcast :
    (String.mk (List.replicate 1001 'a')).length = 1001 ∧
    (onMessage "room1" "alice" (String.mk (List.replicate 1001 'a')) "text" 9
        { initState with roomPersistence := [("room1", true)] }).1.db =
      [⟨"room1", "alice", String.mk (List.replicate 1001 'a'), "text", none,
        none, 9⟩] ∧
    (onMessage "room1" "alice" (String.mk (List.replicate 1001 'a')) "text" 9
        { initState with roomPersistence := [("room1", true)] }).2 =
      [Event.message "room1" ⟨"alice", String.mk (List.replicate 1001 'a'),
        "text", none, none, 9⟩] := by
  refine ⟨?_, rfl, rfl⟩
  have h1 : (String.mk (List.replicate 1001 'a')).length =
      (List.replicate 1001 'a').length := rfl
  rw [h1, List.length_replicate]

/-- C5 counterexample: the active-member set is not the set of connections
that joined and have not left. Connection 2 joined room `b` as `bob` and never
disconnected, yet after connection 1 (same nickname, different room)
disconnects, room `b`'s active set is empty. -/
theorem C5_cex_disconnect_removes_live_member :
    Action.join 2 "bob" "b" false false 2 ∈
      [Action.join 1 "bob" "a" false false 1,
       Action.join 2 "bob" "b" false false 2, Action.disc 1 3] ∧
    ([Action.join 1 "bob" "a" false false 1,
      Action.join 2 "bob" "b" false false 2, Action.disc 1 3].filter
        (fun a => match a with
          | Action.disc c _ => c == 2
          | _ => false)) = [] ∧
    activeUsers "b" (run [Action.join 1 "bob" "a" false false 1,
      Action.join 2 "bob" "b" false false 2, Action.disc 1 3] initState) = [] := by
  refine ⟨by decide, by decide, ?_⟩
  decide

/-- C6 counterexample: joining with a room code that has no record, with the
creator flag off, does not fail. The handler emits no error event and
registers the nickname as an active member of the fresh room code. -/
theorem C6_cex_join_unknown_room_succeeds :
    (joinRoom 1 "alice" "ZZZZ" false false 10 initState).2.filter isErrorEvt
      = [] ∧
    activeUsers "ZZZZ" (joinRoom 1 "alice" "ZZZZ" false false 10 initState).1
      = ["alice"] := by
  refine ⟨rfl, ?_⟩
  decide

/-- C6 amended: joining with a room code that has no existing record, when the
caller is not flagged as creator, succeeds rather than failing: no error event
is emitted, the nickname is registered as the sole active member of the new
code, and the persistence table is left unchanged (no room record is
created in it). -/
theorem C6_amended_join_unknown_room_registers_member (s : ServerState)
    (c : Nat) (u r : String) (now : Nat) (h : mapGet s.rooms r = none) :
    (joinRoom c u r false false now s).2.filter isErrorEvt = [] ∧
    activeUsers r (joinRoom c u r false false now s).1 = [u] ∧
    (joinRoom c u r false false now s).1.roomPersistence = s.roomPersistence := by
  refine ⟨rfl, ?_, rfl⟩
  rw [joinRoom_activeUsers, if_pos rfl]
  unfold activeUsers
  rw [h]
  simp [setAdd]

/-- Witness for `C6_amended_join_unknown_room_registers_member` at a concrete
unknown room code. -/
theorem C6_amended_witness :
    mapGet initState.rooms "Q1" = none ∧
    ((joinRoom 2 "carol" "Q1" false false 7 initState).2.filter isErrorEvt
        = [] ∧
      activeUsers "Q1" (joinRoom 2 "carol" "Q1" false false 7 initState).1
        = ["carol"] ∧
      (joinRoom 2 "carol" "Q1" false false 7 initState).1.roomPersistence =
        initState.roomPersistence) :=
  ⟨by decide, C6_amended_join_unknown_room_registers_member initState 2 "carol"
    "Q1" 7 (by decide)⟩

/-- C3: after a file expires, every stored message whose `fileUrl` points at it
has the reference cleared and its text replaced by the expiry notice, and every
other stored message is unchanged in every field; the store keeps its length. -/
theorem C3_expiry_redaction_exact_and_frame_preserving (s : ServerState)
    (f : String) :
    (deleteFile f ("/uploads/" ++ f) s).db.length = s.db.length ∧
    ∀ (i : Nat) (h : i < s.db.length),
      (s.db[i].fileUrl = some ("/uploads/" ++ f) →
        (deleteFile f ("/uploads/" ++ f) s).db[i]? =
          some { s.db[i] with text := expiryNotice, fileUrl := none }) ∧
      (s.db[i].fileUrl ≠ some ("/uploads/" ++ f) →
        (deleteFile f ("/uploads/" ++ f) s).db[i]? = some s.db[i]) := by
  have hdb : (deleteFile f ("/uploads/" ++ f) s).db =
      s.db.map (redactMsg ("/uploads/" ++ f) expiryNotice) := rfl
  constructor
  · rw [hdb]
    simp
  · intro i h
    constructor
    · intro heq
      rw [hdb, List.getElem?_map, List.getElem?_eq_getElem h]
      simp [redactMsg, heq]
    · intro hne
      rw [hdb, List.getElem?_map, List.getElem?_eq_getElem h]
      simp [redactMsg, hne]

/-- Witness for `C3_expiry_redaction_exact_and_frame_preserving` on a concrete
store holding one matching file message and one unrelated text message. -/
theorem C3_witness :
    (0 : Nat) < cexState.db.length ∧
    (deleteFile "f.png" ("/uploads/" ++ "f.png") cexState).db[0]? =
      some { cexFileMsg with text := expiryNotice, fileUrl := none } ∧
    (deleteFile "f.png" ("/uploads/" ++ "f.png") cexState).db[1]? =
      some cexTextMsg := by
  have h0 : (0 : Nat) < cexState.db.length := by decide
  have h1 : (1 : Nat) < cexState.db.length := by decide
  have e0 :=
    ((C3_expiry_redaction_exact_and_frame_preserving cexState "f.png").2 0 h0).1
      (by rfl)
  have e1 :=
    ((C3_expiry_redaction_exact_and_frame_preserving cexState "f.png").2 1 h1).2
      (fun hcontra => Option.noConfusion hcontra)
  refine ⟨h0, ?_, ?_⟩
  · rw [e0]
    rfl
  · rw [e1]
    rfl

/-- C9: the SIGINT handler cancels every tracked expiry timer, empties the
uploads directory (hence deletes every tracked file's bytes), redacts exactly
the stored file messages that still carry a URL using the shutdown notice —
which differs from the normal expiry notice — leaves other messages untouched,
closes the store connection, and exits with code 0. -/
theorem C9_sigint_runs_shutdown_cleanup (s : ServerState) :
    (∀ fname e, (fname, e) ∈ s.uploadedFiles →
      e.timer ∉ (sigintCleanup s).1.timers) ∧
    (s.dirExists = true → (sigintCleanup s).1.disk = []) ∧
    (s.dirExists = true → ∀ (i : Nat) (h : i < s.db.length),
      (s.db[i].type = "file" ∧ s.db[i].fileUrl ≠ none →
        (sigintCleanup s).1.db[i]? =
          some { s.db[i] with text := shutdownNotice, fileUrl := none }) ∧
      (¬(s.db[i].type = "file" ∧ s.db[i].fileUrl ≠ none) →
        (sigintCleanup s).1.db[i]? = some s.db[i])) ∧
    shutdownNotice ≠ expiryNotice ∧
    (sigintCleanup s).1.dbOpen = false ∧
    (sigintCleanup s).2 = 0 := by
  have htimers : (sigintCleanup s).1.timers =
      s.timers.filter
        (fun t => ¬ s.uploadedFiles.any (fun p => p.2.timer = t)) := by
    unfold sigintCleanup
    simp only
    split <;> rfl
  have hdb : s.dirExists = true →
      (sigintCleanup s).1.db = s.db.map shutdownRedact := by
    intro hd
    unfold sigintCleanup
    simp only
    split
    · rfl
    · rename_i hcond
      exact absurd hd hcond
  refine ⟨?_, ?_, ?_, by decide, rfl, rfl⟩
  · intro fname e hmem hcontra
    rw [htimers, List.mem_filter] at hcontra
    have hany : s.uploadedFiles.any (fun p => p.2.timer = e.timer) = true :=
      List.any_eq_true.mpr ⟨(fname, e), hmem, by simp⟩
    have := of_decide_eq_true hcontra.2
    exact this hany
  · intro hd
    unfold sigintCleanup
    simp only
    split
    · rfl
    · rename_i hcond
      exact absurd hd hcond
  · intro hd i h
    constructor
    · intro heff
      rw [hdb hd, List.getElem?_map, List.getElem?_eq_getElem h]
      show some (shutdownRedact _) = _
      unfold shutdownRedact
      rw [if_pos heff]
    · intro hfr
      rw [hdb hd, List.getElem?_map, List.getElem?_eq_getElem h]
      show some (shutdownRedact _) = _
      unfold shutdownRedact
      rw [if_neg hfr]

/-- Witness for `C9_sigint_runs_shutdown_cleanup` on a concrete state with one
tracked file, its timer, its bytes on disk, and a matching file message. -/
theorem C9_witness :
    ("f.png", (⟨77, "room1", "cat.png"⟩ : FileEntry)) ∈
        cexState.uploadedFiles ∧
    (77 : Nat) ∉ (sigintCleanup cexState).1.timers ∧
    cexState.dirExists = true ∧
    (sigintCleanup cexState).1.disk = [] ∧
    (sigintCleanup cexState).1.db[0]? =
      some { cexFileMsg with text := shutdownNotice, fileUrl := none } := by
  have hmem : ("f.png", (⟨77, "room1", "cat.png"⟩ : FileEntry)) ∈
      cexState.uploadedFiles := by decide
  have hlen : (0 : Nat) < cexState.db.length := by decide
  refine ⟨hmem,
    (C9_sigint_runs_shutdown_cleanup cexState).1 "f.png" ⟨77, "room1", "cat.png"⟩
      hmem,
    by decide,
    (C9_sigint_runs_shutdown_cleanup cexState).2.1 (by decide), ?_⟩
  have e0 :=
    ((C9_sigint_runs_shutdown_cleanup cexState).2.2.1 (by decide) 0
      hlen).1 ⟨by rfl, fun hcontra => Option.noConfusion hcontra⟩
  rw [e0]
  rfl

/-- C10: the disconnect handler keys removal on the socket's stored nickname:
for every room it removes that nickname from the active set, and it emits a
membership update and a leave system message exactly to the rooms that
contained the nickname. Consequently (concrete part) a disconnect of
connection 1 empties room `b`'s active set even though connection 1 never
joined room `b`. -/
theorem C10_disconnect_keys_on_nickname :
    (∀ (s : ServerState) (c : Nat) (n : String) (now : Nat),
      mapGet s.socketNames c = some n →
      (∀ q, activeUsers q (disconnect c now s).1 =
          setDelete (activeUsers q s) n) ∧
      (∀ r users, (r, users) ∈ s.rooms → n ∈ users →
        Event.roomUsers r (setDelete users n) ∈ (disconnect c now s).2 ∧
        Event.message r ⟨"System", n ++ " has left the room", "system", none,
          none, now⟩ ∈ (disconnect c now s).2) ∧
      (∀ r users, Event.roomUsers r users ∈ (disconnect c now s).2 →
        ∃ us, (r, us) ∈ s.rooms ∧ n ∈ us ∧ users = setDelete us n)) ∧
    activeUsers "b" (run cexTrace initState) = ["bob"] ∧
    activeUsers "b" (disconnect 1 3 (run cexTrace initState)).1 = [] ∧
    (cexTrace.filter (fun a => match a with
      | Action.join c _ r _ _ _ => c == 1 && r == "b"
      | _ => false)) = [] := by
  refine ⟨?_, by decide, by decide, by decide⟩
  intro s c n now h
  have hsnd : (disconnect c now s).2 =
      (s.rooms.filter (fun p => decide (n ∈ p.2))).flatMap (fun p =>
        [Event.roomUsers p.1 (setDelete p.2 n),
         Event.message p.1 ⟨"System", n ++ " has left the room", "system",
           none, none, now⟩]) := by
    unfold disconnect
    rw [h]
  refine ⟨disconnect_activeUsers c now s n h, ?_, ?_⟩
  · intro r users hmem hn
    rw [hsnd]
    have hf : (r, users) ∈ s.rooms.filter (fun p => decide (n ∈ p.2)) :=
      List.mem_filter.mpr ⟨hmem, by simpa using hn⟩
    exact ⟨List.mem_flatMap.mpr ⟨(r, users), hf, by simp⟩,
      List.mem_flatMap.mpr ⟨(r, users), hf, by simp⟩⟩
  · intro r users hev
    rw [hsnd] at hev
    obtain ⟨p, hp, he⟩ := List.mem_flatMap.mp hev
    obtain ⟨hpmem, hpn⟩ := List.mem_filter.mp hp
    have hn : n ∈ p.2 := of_decide_eq_true hpn
    simp only [List.mem_cons, List.not_mem_nil, or_false] at he
    rcases he with he | he
    · injection he with h1 h2
      exact ⟨p.2, by rw [h1]; exact hpmem, hn, h2⟩
    · exact Event.noConfusion he

/-- Witness for the universally quantified part of
`C10_disconnect_keys_on_nickname` at the concrete two-room trace state. -/
theorem C10_witness :
    mapGet (run cexTrace initState).socketNames 1 = some "bob" ∧
    activeUsers "b" (disconnect 1 3 (run cexTrace initState)).1 =
      setDelete (activeUsers "b" (run cexTrace initState)) "bob" :=
  ⟨by decide,
    (C10_disconnect_keys_on_nickname.1 (run cexTrace initState) 1 "bob" 3
      (by decide)).1 "b"⟩

/-- A redaction pass is pointwise idempotent. -/
theorem redactMsg_idem (u t : String) (m : Msg) :
    redactMsg u t (redactMsg u t m) = redactMsg u t m := by
  unfold redactMsg
  by_cases h : m.fileUrl = some u
  · rw [if_pos h]
    simp
  · rw [if_neg h, if_neg h]

/-- A redaction pass over the whole store is idempotent: after the first pass
no document matches the query any more. -/
theorem map_redact_idem (u t : String) (db : List Msg) :
    (db.map (redactMsg u t)).map (redactMsg u t) = db.map (redactMsg u t) := by
  rw [List.map_map]
  exact List.map_congr_left (fun m _ => redactMsg_idem u t m)

theorem mapDelete_mapDelete {K V : Type} [DecidableEq K] (m : List (K × V))
    (k : K) : mapDelete (mapDelete m k) k = mapDelete m k := by
  show List.filter _ (mapDelete m k) = mapDelete m k
  rw [List.filter_eq_self]
  intro p hp
  exact (List.mem_filter.mp hp).2

/-- `deleteFile` is idempotent. -/
theorem deleteFile_idem (f u : String) (s : ServerState) :
    deleteFile f u (deleteFile f u s) = deleteFile f u s := by
  cases s with
  | mk rooms rp sn db users uf timers disk de dbo =>
    unfold deleteFile
    simp [mapDelete_mapDelete, map_redact_idem, redactMsg_idem]

theorem sweepFile_disk_other (now : Nat) (st : ServerState) (g f : String)
    (hfg : f ≠ g) : mapGet (sweepFile now st g).disk f = mapGet st.disk f := by
  unfold sweepFile
  cases hg : mapGet st.disk g with
  | none => rfl
  | some mt =>
    show mapGet (if FILE_EXPIRY_TIME ≤ now - mt then
        deleteFile g ("/uploads/" ++ g) st else st).disk f = mapGet st.disk f
    by_cases hc : FILE_EXPIRY_TIME ≤ now - mt
    · rw [if_pos hc]
      exact mapGet_mapDelete_ne _ _ _ hfg
    · rw [if_neg hc]

theorem sweepFile_disk_self_keep (now : Nat) (st : ServerState) (f : String)
    (T : Nat) (h : mapGet st.disk f = some T)
    (hc : ¬ FILE_EXPIRY_TIME ≤ now - T) :
    mapGet (sweepFile now st f).disk f = some T := by
  unfold sweepFile
  rw [h]
  show mapGet (if FILE_EXPIRY_TIME ≤ now - T then
      deleteFile f ("/uploads/" ++ f) st else st).disk f = some T
  rw [if_neg hc]
  exact h

theorem sweepFile_disk_self_del (now : Nat) (st : ServerState) (f : String)
    (T : Nat) (h : mapGet st.disk f = some T)
    (hc : FILE_EXPIRY_TIME ≤ now - T) :
    mapGet (sweepFile now st f).disk f = none := by
  unfold sweepFile
  rw [h]
  show mapGet (if FILE_EXPIRY_TIME ≤ now - T then
      deleteFile f ("/uploads/" ++ f) st else st).disk f = none
  rw [if_pos hc]
  exact mapGet_mapDelete_self _ _

theorem sweepFold_none (now : Nat) (names : List String) :
    ∀ (s : ServerState) (f : String), mapGet s.disk f = none →
      mapGet ((names.foldl (sweepFile now) s)).disk f = none := by
  induction names with
  | nil => exact fun s f h => h
  | cons g names ih =>
    intro s f h
    rw [List.foldl_cons]
    apply ih
    by_cases hfg : f = g
    · subst hfg
      unfold sweepFile
      rw [h]
      exact h
    · rw [sweepFile_disk_other now s g f hfg]
      exact h

theorem sweepFold_keep (now : Nat) (names : List String) :
    ∀ (s : ServerState) (f : String) (T : Nat), mapGet s.disk f = some T →
      now < T + FILE_EXPIRY_TIME →
      mapGet ((names.foldl (sweepFile now) s)).disk f = some T := by
  induction names with
  | nil => exact fun s f T h _ => h
  | cons g names ih =>
    intro s f T h hlt
    have hpos : 0 < FILE_EXPIRY_TIME := by norm_num [FILE_EXPIRY_TIME]
    rw [List.foldl_cons]
    refine ih _ _ _ ?_ hlt
    by_cases hfg : f = g
    · subst hfg
      exact sweepFile_disk_self_keep now s f T h (by omega)
    · rw [sweepFile_disk_other now s g f hfg]
      exact h

theorem sweepFold_delete (now : Nat) (names : List String) :
    ∀ (s : ServerState) (f : String) (T : Nat), mapGet s.disk f = some T →
      T + FILE_EXPIRY_TIME ≤ now → f ∈ names →
      mapGet ((names.foldl (sweepFile now) s)).disk f = none := by
  induction names with
  | nil =>
    intro s f T _ _ hmem
    cases hmem
  | cons g names ih =>
    intro s f T h hge hmem
    rw [List.foldl_cons]
    by_cases hfg : f = g
    · subst hfg
      apply sweepFold_none now names
      exact sweepFile_disk_self_del now s f T h (by omega)
    · have hmem' : f ∈ names := by
        cases hmem with
        | head => exact absurd rfl hfg
        | tail _ h' => exact h'
      refine ih _ _ T ?_ hge hmem'
      rw [sweepFile_disk_other now s g f hfg]
      exact h

/-- C2: file deletion is idempotent and happens exactly once, at or after the
deadline, via the sweep. A file on disk with mtime `T` survives every sweep
before `T + FILE_EXPIRY_TIME` and is removed by the first sweep at or after
it; a deleted file stays deleted across further sweeps; `deleteFile` applied
twice equals `deleteFile` applied once (the redaction matches nothing on the
second pass and the absent file is not an error); deletion removes the
tracking entry. -/
theorem C2_deletion_idempotent_exactly_once :
    (∀ (f u : String) (s : ServerState),
      deleteFile f u (deleteFile f u s) = deleteFile f u s) ∧
    (∀ (s : ServerState) (now : Nat) (f : String) (T : Nat),
      mapGet s.disk f = some T → now < T + FILE_EXPIRY_TIME →
      mapGet (cleanupExpiredFiles now s).disk f = some T) ∧
    (∀ (s : ServerState) (now : Nat) (f : String) (T : Nat),
      s.dirExists = true → mapGet s.disk f = some T →
      T + FILE_EXPIRY_TIME ≤ now →
      mapGet (cleanupExpiredFiles now s).disk f = none) ∧
    (∀ (s : ServerState) (now : Nat) (f : String),
      mapGet s.disk f = none →
      mapGet (cleanupExpiredFiles now s).disk f = none) ∧
    (∀ (f u : String) (s : ServerState),
      mapGet (deleteFile f u s).uploadedFiles f = none ∧
      (deleteFile f u s).db.map (redactMsg u expiryNotice) =
        (deleteFile f u s).db) := by
  refine ⟨deleteFile_idem, ?_, ?_, ?_, ?_⟩
  · intro s now f T h hlt
    unfold cleanupExpiredFiles
    split
    · exact sweepFold_keep now _ s f T h hlt
    · exact h
  · intro s now f T hd h hge
    unfold cleanupExpiredFiles
    split
    · exact sweepFold_delete now _ s f T h hge
        (mem_key_of_mapGet_some s.disk f T h)
    · rename_i hcond
      exact absurd hd hcond
  · intro s now f h
    unfold cleanupExpiredFiles
    split
    · exact sweepFold_none now _ s f h
    · exact h
  · intro f u s
    exact ⟨mapGet_mapDelete_self _ _, map_redact_idem u expiryNotice s.db⟩

/-- Witness for `C2_deletion_idempotent_exactly_once` on a concrete state with
one file registered at time 100: a sweep at 99 keeps it, a sweep at
`100 + FILE_EXPIRY_TIME` removes it, and `deleteFile` twice equals once. -/
theorem C2_witness :
    deleteFile "f.png" "/uploads/f.png"
        (deleteFile "f.png" "/uploads/f.png" cexState) =
      deleteFile "f.png" "/uploads/f.png" cexState ∧
    mapGet cexState.disk "f.png" = some 100 ∧
    mapGet (cleanupExpiredFiles 99 cexState).disk "f.png" = some 100 ∧
    cexState.dirExists = true ∧
    mapGet (cleanupExpiredFiles (100 + FILE_EXPIRY_TIME) cexState).disk "f.png"
      = none :=
  ⟨C2_deletion_idempotent_exactly_once.1 "f.png" "/uploads/f.png" cexState,
   by decide,
   C2_deletion_idempotent_exactly_once.2.1 cexState 99 "f.png" 100 (by decide)
     (by norm_num [FILE_EXPIRY_TIME]),
   by decide,
   C2_deletion_idempotent_exactly_once.2.2.1 cexState (100 + FILE_EXPIRY_TIME)
     "f.png" 100 (by decide) (by decide) (Nat.le_refl _)⟩

/-! ### Persistence gating (claim C4) -/

theorem getD_false_true {o : Option Bool} (h : o.getD false = true) :
    o = some true := by
  cases o with
  | none => simp at h
  | some b =>
    simp only [Option.getD_some] at h
    rw [h]

theorem redactMsg_room (u t : String) (m : Msg) :
    (redactMsg u t m).room = m.room := by
  unfold redactMsg
  split <;> rfl

theorem joinRoom_roomPersistence (c : Nat) (u room : String) (p ic : Bool)
    (now : Nat) (s : ServerState) :
    (joinRoom c u room p ic now s).1.roomPersistence =
      if ic then mapSet s.roomPersistence room p else s.roomPersistence := rfl

theorem joinRoom_db (c : Nat) (u room : String) (p ic : Bool) (now : Nat)
    (s : ServerState) : (joinRoom c u room p ic now s).1.db = s.db := rfl

theorem onMessage_roomPersistence (room u t ty : String) (now : Nat)
    (s : ServerState) :
    (onMessage room u t ty now s).1.roomPersistence = s.roomPersistence := rfl

theorem uploadHandler_roomPersistence (f : Option FileInfo) (room u : String)
    (now : Nat) (s : ServerState) :
    (uploadHandler f room u now s).1.roomPersistence = s.roomPersistence := by
  cases f with
  | none => rfl
  | some fi =>
    show (uploadHandler (some fi) room u now s).1.roomPersistence =
      s.roomPersistence
    unfold uploadHandler
    split
    all_goals rfl

theorem disconnect_db (c : Nat) (now : Nat) (s : ServerState) :
    (disconnect c now s).1.db = s.db := by
  unfold disconnect
  cases mapGet s.socketNames c <;> rfl

theorem disconnect_roomPersistence (c : Nat) (now : Nat) (s : ServerState) :
    (disconnect c now s).1.roomPersistence = s.roomPersistence := by
  unfold disconnect
  cases mapGet s.socketNames c <;> rfl

theorem sweepFile_db_pred (now : Nat) (st : ServerState) (g r : String)
    (h : ∀ m ∈ st.db, m.room ≠ r) :
    ∀ m ∈ (sweepFile now st g).db, m.room ≠ r := by
  unfold sweepFile
  cases hg : mapGet st.disk g with
  | none => exact h
  | some mt =>
    show ∀ m ∈ (if FILE_EXPIRY_TIME ≤ now - mt then
        deleteFile g ("/uploads/" ++ g) st else st).db, m.room ≠ r
    by_cases hc : FILE_EXPIRY_TIME ≤ now - mt
    · rw [if_pos hc]
      intro m hm
      have hdb : (deleteFile g ("/uploads/" ++ g) st).db =
          st.db.map (redactMsg ("/uploads/" ++ g) expiryNotice) := rfl
      rw [hdb] at hm
      obtain ⟨m₀, hm₀, rfl⟩ := List.mem_map.mp hm
      rw [redactMsg_room]
      exact h m₀ hm₀
    · rw [if_neg hc]
      exact h

theorem cleanup_db_pred (now : Nat) (s : ServerState) (r : String)
    (h : ∀ m ∈ s.db, m.room ≠ r) :
    ∀ m ∈ (cleanupExpiredFiles now s).db, m.room ≠ r := by
  unfold cleanupExpiredFiles
  split
  · exact foldl_preserve (sweepFile now) (fun st => ∀ m ∈ st.db, m.room ≠ r)
      (fun st g hst => sweepFile_db_pred now st g r hst) _ s h
  · exact h

/-- Over a trace that never turns room `r`'s persistence on, the flag never
reads `true` and no stored message belongs to `r`. -/
theorem run_no_persist_no_msgs (r : String) (tr : List Action) :
    ∀ (s : ServerState), (∀ a ∈ tr, ¬ makesPersistent a r) →
      mapGet s.roomPersistence r ≠ some true →
      (∀ m ∈ s.db, m.room ≠ r) →
      mapGet (run tr s).roomPersistence r ≠ some true ∧
      (∀ m ∈ (run tr s).db, m.room ≠ r) := by
  induction tr with
  | nil => exact fun s _ h1 h2 => ⟨h1, h2⟩
  | cons a tr ih =>
    intro s hna h1 h2
    have hna' : ∀ b ∈ tr, ¬ makesPersistent b r :=
      fun b hb => hna b (List.mem_cons_of_mem a hb)
    show mapGet (run tr (step s a)).roomPersistence r ≠ some true ∧
      (∀ m ∈ (run tr (step s a)).db, m.room ≠ r)
    cases a with
    | join c u room p ic now =>
      refine ih (step s (Action.join c u room p ic now)) hna' ?_ ?_
      · rw [show step s (Action.join c u room p ic now) =
            (joinRoom c u room p ic now s).1 from rfl, joinRoom_roomPersistence]
        split
        · rename_i hic
          by_cases hr : room = r
          · subst hr
            rw [mapGet_mapSet_self]
            intro hcontra
            have hp : p = true := Option.some_inj.mp hcontra
            exact hna _ (List.mem_cons_self _ _) ⟨c, u, now, by rw [hp, hic]⟩
          · rw [mapGet_mapSet_ne _ _ _ _ (fun hh => hr hh.symm)]
            exact h1
        · exact h1
      · rw [show step s (Action.join c u room p ic now) =
            (joinRoom c u room p ic now s).1 from rfl, joinRoom_db]
        exact h2
    | msg room u t ty now =>
      refine ih (step s (Action.msg room u t ty now)) hna' ?_ ?_
      · rw [show step s (Action.msg room u t ty now) =
            (onMessage room u t ty now s).1 from rfl, onMessage_roomPersistence]
        exact h1
      · rw [show step s (Action.msg room u t ty now) =
            (onMessage room u t ty now s).1 from rfl]
        intro m hm
        have hdb : (onMessage room u t ty now s).1.db =
            if (mapGet s.roomPersistence room).getD false then
              s.db ++ [⟨room, u, t, ty, none, none, now⟩]
            else s.db := rfl
        rw [hdb] at hm
        by_cases hflag : (mapGet s.roomPersistence room).getD false
        · rw [if_pos hflag] at hm
          rcases List.mem_append.mp hm with hm | hm
          · exact h2 m hm
          · have hmeq := List.mem_singleton.mp hm
            subst hmeq
            intro hR
            have hR' : room = r := hR
            exact h1 (hR' ▸ getD_false_true hflag)
        · rw [if_neg hflag] at hm
          exact h2 m hm
    | upload f room u now =>
      cases f with
      | none => exact ih _ hna' h1 h2
      | some fi =>
        refine ih (step s (Action.upload (some fi) room u now)) hna' ?_ ?_
        · rw [show step s (Action.upload (some fi) room u now) =
              (uploadHandler (some fi) room u now s).1 from rfl,
            uploadHandler_roomPersistence]
          exact h1
        · rw [show step s (Action.upload (some fi) room u now) =
              (uploadHandler (some fi) room u now s).1 from rfl]
          intro m hm
          have hdb : (uploadHandler (some fi) room u now s).1.db =
              if (mapGet s.roomPersistence room).getD false then
                s.db ++ [⟨room, u, fi.originalname, "file", some fi.originalname,
                  some ("/uploads/" ++ fi.filename), now⟩]
              else s.db := rfl
          rw [hdb] at hm
          by_cases hflag : (mapGet s.roomPersistence room).getD false
          · rw [if_pos hflag] at hm
            rcases List.mem_append.mp hm with hm | hm
            · exact h2 m hm
            · have hmeq := List.mem_singleton.mp hm
              subst hmeq
              intro hR
              have hR' : room = r := hR
              exact h1 (hR' ▸ getD_false_true hflag)
          · rw [if_neg hflag] at hm
            exact h2 m hm
    | disc c now =>
      refine ih (step s (Action.disc c now)) hna' ?_ ?_
      · rw [show step s (Action.disc c now) = (disconnect c now s).1 from rfl,
          disconnect_roomPersistence]
        exact h1
      · rw [show step s (Action.disc c now) = (disconnect c now s).1 from rfl,
          disconnect_db]
        exact h2
    | sweep now =>
      refine ih (step s (Action.sweep now)) hna' ?_ ?_
      · rw [show step s (Action.sweep now) = cleanupExpiredFiles now s from rfl,
          cleanup_roomPersistence]
        exact h1
      · rw [show step s (Action.sweep now) = cleanupExpiredFiles now s from rfl]
        exact cleanup_db_pred now s r h2

/-- C4: a message is durably written iff the owning room's persistence flag is
true, and it is broadcast unconditionally; a room whose flag is never turned
on has an empty history at every later read; `listByRoom` always returns
messages in ascending creation order, and when the stored room messages are
already in ascending order it returns exactly them (so a persist-true room
reads back what was broadcast, in order). -/
theorem C4_persistence_gating :
    (∀ (r u t ty : String) (now : Nat) (s : ServerState),
      ((mapGet s.roomPersistence r).getD false = true →
        (onMessage r u t ty now s).1.db =
          s.db ++ [⟨r, u, t, ty, none, none, now⟩]) ∧
      ((mapGet s.roomPersistence r).getD false = false →
        (onMessage r u t ty now s).1.db = s.db) ∧
      (onMessage r u t ty now s).2 =
        [Event.message r ⟨u, t, ty, none, none, now⟩]) ∧
    (∀ (tr : List Action) (r : String),
      (∀ a ∈ tr, ¬ makesPersistent a r) →
      listByRoom r (run tr initState).db = []) ∧
    (∀ (r : String) (db : List Msg),
      List.Sorted msgLE (listByRoom r db)) ∧
    (∀ (r : String) (db : List Msg),
      List.Sorted msgLE (db.filter (fun m => m.room == r)) →
      listByRoom r db = db.filter (fun m => m.room == r)) := by
  refine ⟨?_, ?_, ?_, ?_⟩
  · intro r u t ty now s
    refine ⟨?_, ?_, rfl⟩
    · intro h
      have hdb : (onMessage r u t ty now s).1.db =
          if (mapGet s.roomPersistence r).getD false then
            s.db ++ [⟨r, u, t, ty, none, none, now⟩]
          else s.db := rfl
      rw [hdb, if_pos h]
    · intro h
      have hdb : (onMessage r u t ty now s).1.db =
          if (mapGet s.roomPersistence r).getD false then
            s.db ++ [⟨r, u, t, ty, none, none, now⟩]
          else s.db := rfl
      rw [hdb, if_neg (by rw [h]; exact Bool.false_ne_true)]
  · intro tr r hna
    have hinv := run_no_persist_no_msgs r tr initState hna
      (by rw [show initState.roomPersistence = [] from rfl, mapGet_nil]
          exact fun hcontra => Option.noConfusion hcontra)
      (by intro m hm; cases hm)
    unfold listByRoom
    have hf : (run tr initState).db.filter (fun m => m.room == r) = [] := by
      rw [List.filter_eq_nil_iff]
      intro m hm
      simpa using hinv.2 m hm
    rw [hf]
    rfl
  · intro r db
    exact List.sorted_insertionSort msgLE _
  · intro r db h
    exact List.Sorted.insertionSort_eq h

/-- Witness for `C4_persistence_gating`: a persist-true room stores the sent
message, a room never made persistent has empty history after the sample
trace, and a sorted store reads back unchanged. -/
theorem C4_witness :
    ((mapGet cexPersistState.roomPersistence "room1").getD false = true ∧
      (onMessage "room1" "alice" "hi" "text" 4 cexPersistState).1.db =
        cexPersistState.db ++ [⟨"room1", "alice", "hi", "text", none, none, 4⟩]) ∧
    listByRoom "room1" (run cexTrace initState).db = [] ∧
    listByRoom "room1" [cexTextMsg] =
      [cexTextMsg].filter (fun m => m.room == "room1") := by
  refine ⟨⟨by decide, ?_⟩, ?_, ?_⟩
  · exact ((C4_persistence_gating.1 "room1" "alice" "hi" "text" 4
      cexPersistState).1 (by decide))
  · refine C4_persistence_gating.2.1 cexTrace "room1" ?_
    intro a ha hmp
    obtain ⟨c', u', now', ha'⟩ := hmp
    simp only [cexTrace, List.mem_cons, List.not_mem_nil, or_false] at ha
    rcases ha with rfl | rfl
    · injection ha' with h1 h2 h3 h4 h5 h6
      exact Bool.noConfusion h4
    · injection ha' with h1 h2 h3 h4 h5 h6
      exact Bool.noConfusion h4
  · exact C4_persistence_gating.2.2.2 "room1" [cexTextMsg] (by decide)

/-- C5 amended: the active-member set reported to a joining client is keyed by
nickname, not by connection: a nickname is in a room's active set after a
trace exactly when some join of that nickname to that room is not followed by
a disconnect of any connection whose stored nickname matches; the set never
contains duplicates, and the snapshot sent to a joining client is exactly the
post-join active set. -/
theorem C5_membership_keyed_by_nickname :
    (∀ (tr : List Action) (n r : String),
      n ∈ activeUsers r (run tr initState) ↔ specActiveMember tr n r) ∧
    (∀ (tr : List Action) (r : String),
      (activeUsers r (run tr initState)).Nodup) ∧
    (∀ (c : Nat) (u room : String) (p ic : Bool) (now : Nat) (s : ServerState),
      ∃ past hist pers, (joinRoom c u room p ic now s).2.head? =
        some (Event.roomData c
          (activeUsers room (joinRoom c u room p ic now s).1) past hist pers)) := by
  refine ⟨mem_activeUsers_iff, activeUsers_run_nodup, ?_⟩
  intro c u room p ic now s
  exact ⟨_, _, _, rfl⟩

/-- Witness for `C5_membership_keyed_by_nickname` at the concrete sample
trace. -/
theorem C5_witness :
    ("bob" ∈ activeUsers "b" (run cexTrace initState) ↔
      specActiveMember cexTrace "bob" "b") ∧
    (activeUsers "b" (run cexTrace initState)).Nodup :=
  ⟨C5_membership_keyed_by_nickname.1 cexTrace "bob" "b",
    C5_membership_keyed_by_nickname.2.1 cexTrace "b"⟩

end ChatApp
